import Mathlib

/-!
Verification of MCSmaker (manager.py) against its specification.

This file contains a shallow embedding of the core operations of
`manager.py` — the RAM normalizer, the heap warning check, the resumable
downloader, the session supervisor (stop), the backup coordinator, the
descriptor reader and the session-name function — together with theorems
settling the claims about them.

Conventions of the embedding:
* Python strings are Lean `String`s; character classes are decided on
  `Char.toNat` codepoints to mirror the ASCII semantics of the source.
* Stateful operations (screen queries, HTTP requests, filesystem walks)
  are embedded as pure functions over an explicit environment: an oracle
  `Nat → Bool` gives the answer of the i-th `is_running` query, an HTTP
  transport is a function from the optional Range offset to a response,
  and a directory walk is a list of entries.  Each operation returns the
  list of externally visible events it performs.
* Python exceptions are modelled with `Option`/explicit failure flags.
-/

namespace MCSmaker

/-! ## Character-level helpers (Python str semantics, ASCII fragment) -/

/-- Python `str.strip()` whitespace set (ASCII fragment):
space, tab, newline, carriage return, vertical tab, form feed. -/
def isPySpace (c : Char) : Bool :=
  c.toNat = 32 || c.toNat = 9 || c.toNat = 10 || c.toNat = 13 ||
  c.toNat = 11 || c.toNat = 12

/-- Embedding of `\d` of the regexes in `manager.py` (ASCII decimal digit). -/
def isDigitChar (c : Char) : Bool :=
  48 ≤ c.toNat && c.toNat ≤ 57

/-- Python `str.upper()` on the ASCII range (all inputs relevant to the
claims are ASCII; `a`-`z` map to `A`-`Z`, everything else is unchanged). -/
def pyUpper (c : Char) : Char :=
  if 97 ≤ c.toNat ∧ c.toNat ≤ 122 then Char.ofNat (c.toNat - 32) else c

/-- Python `str.strip()`: drop leading and trailing whitespace. -/
def pyStrip (l : List Char) : List Char :=
  ((l.dropWhile isPySpace).reverse.dropWhile isPySpace).reverse

/-- The unit letters accepted by `normalize_ram`'s regex `[KMG]`. -/
def isUnitChar (c : Char) : Bool :=
  c.toNat = 75 || c.toNat = 77 || c.toNat = 71

/-- Embedding of `re.sub(r"B$", "", v)`: remove one trailing `B` if present. -/
def dropTrailB (l : List Char) : List Char :=
  if l.getLast? = some 'B' then l.dropLast else l

/-- The value of a decimal digit character (`int` on a matched `\d`). -/
def digitVal (c : Char) : Nat := c.toNat - 48

/-- Python `int(num)` on a string of decimal digits. -/
def digitsToNat (ds : List Char) : Nat :=
  ds.foldl (fun a c => 10 * a + digitVal c) 0

/-- The decimal digit character for `n ≤ 9`. -/
def digitChar (n : Nat) : Char := Char.ofNat (48 + n)

/-- Decimal printing, fuel-indexed (`fuel > n` suffices). -/
def natToCharsAux : Nat → Nat → List Char
  | 0, _ => []
  | fuel + 1, n =>
    if n < 10 then [digitChar n]
    else natToCharsAux fuel (n / 10) ++ [digitChar (n % 10)]

/-- Python `f"{n}"` for a nonnegative int: decimal representation. -/
def natToChars (n : Nat) : List Char := natToCharsAux (n + 1) n

/-! ## RamSpec Normalizer (`normalize_ram`, manager.py lines 247-258) -/

/-- The preprocessing pipeline of `normalize_ram`:
`value.strip().upper().replace(" ", "")` followed by
`re.sub(r"B$", "", v)`. -/
def preprocess (l : List Char) : List Char :=
  dropTrailB (((pyStrip l).map pyUpper).filter (fun c => c ≠ ' '))

/-- Embedding of `re.match(r"^(\d+)([KMG]?)$", v)`: the digit group and the optional
unit group.  `\d+` is maximal-munch here (a digit can never be consumed
by `[KMG]?` or `$`), so greedy parsing is exact. -/
def parseMag (l : List Char) : Option (List Char × Option Char) :=
  let ds := l.takeWhile isDigitChar
  let rest := l.dropWhile isDigitChar
  if ds.isEmpty then none
  else
    match rest with
    | [] => some (ds, none)
    | [c] => if isUnitChar c then some (ds, some c) else none
    | _ => none

/-- The unit-less tail of `normalize_ram`:
`if n >= 256: return f"{n}M"` / `return f"{n}G"`. -/
def ramUnitless (n : Nat) : String :=
  if 256 ≤ n then String.mk (natToChars n ++ ['M'])
  else String.mk (natToChars n ++ ['G'])

/-- Embedding of `normalize_ram(value, fallback)` (manager.py lines 247-258). -/
def normalize_ram (value : String) (fallback : String) : String :=
  if value.data.isEmpty then fallback
  else
    match parseMag (preprocess value.data) with
    | none => fallback
    | some (num, unit) =>
      match unit with
      | some u =>
        if 0 < digitsToNat num then String.mk (num ++ [u])
        else ramUnitless (digitsToNat num)
      | none => ramUnitless (digitsToNat num)

/-- Characters that can appear in a canonical RAM spec: digits and the
unit letters `K`, `M`, `G`. -/
def cleanChar (c : Char) : Bool := isDigitChar c || isUnitChar c

/-! ## Heap warning (`warn_if_heap_too_big`, manager.py lines 270-277) -/

/-- Embedding of `re.match(r"^(\d+)([MG])$", mem_str.upper())`, returning the
magnitude and whether the unit is `G` (else `M`). -/
def parseHeapSpec (l : List Char) : Option (Nat × Bool) :=
  let u := l.map pyUpper
  let ds := u.takeWhile isDigitChar
  let rest := u.dropWhile isDigitChar
  if ds.isEmpty then none
  else
    match rest with
    | [c] =>
      if c.toNat = 77 then some (digitsToNat ds, false)      -- 'M'
      else if c.toNat = 71 then some (digitsToNat ds, true)  -- 'G'
      else none
    | _ => none

/-- Embedding of `warn_if_heap_too_big(mem_str)` with the host total (MB, from
`_total_mem_mb_linux`) passed explicitly; `none` models an unreadable
`/proc/meminfo`.  Returns whether the warning is printed.
`int(total * 0.85)` is modelled as the exact `total * 85 / 100` (for the
integer MB totals involved, CPython's double rounding of `total * 0.85`
truncates to the same value).  The guard `if total and ...` makes a zero
total falsy, hence no warning. -/
def warn_if_heap_too_big (mem_str : String) (totalMb : Option Nat) : Bool :=
  match parseHeapSpec mem_str.data with
  | none => false
  | some (n, isG) =>
    let want_mb := n * (if isG then 1024 else 1)
    match totalMb with
    | none => false
    | some total => decide (total ≠ 0 ∧ total * 85 / 100 < want_mb)

/-! ## Session names (`safe_name` line 170, `_session_name` line 585) -/

/-- The character class `[A-Za-z0-9._-]` kept by `safe_name`. -/
def safeChar (c : Char) : Bool :=
  (65 ≤ c.toNat && c.toNat ≤ 90) || (97 ≤ c.toNat && c.toNat ≤ 122) ||
  (48 ≤ c.toNat && c.toNat ≤ 57) || c.toNat = 46 || c.toNat = 95 || c.toNat = 45

/-- Python `.strip("_")`: drop leading and trailing underscores. -/
def stripUnderscores (l : List Char) : List Char :=
  ((l.dropWhile (fun c => c = '_')).reverse.dropWhile (fun c => c = '_')).reverse

/-- Embedding of `safe_name(s)`: replace every character outside `[A-Za-z0-9._-]`
by `_`, strip leading/trailing `_`, and fall back to `"server"` when
the result is empty (`s or ""` is the identity on strings here since
the empty string maps to `"server"` either way). -/
def safe_name (s : String) : String :=
  let t := stripUnderscores (s.data.map (fun c => if safeChar c then c else '_'))
  if t.isEmpty then "server" else String.mk t

/-- Embedding of `_session_name(folder)`: `f"mc_{safe_name(folder.name)}"`, as a
function of the directory's base name. -/
def sessionName (folderName : String) : String :=
  "mc_" ++ safe_name folderName

/-- A directory base name that `safe_name` keeps verbatim: nonempty,
only characters from `[A-Za-z0-9._-]`, and no leading or trailing
underscore. -/
def goodName (d : String) : Prop :=
  d.data ≠ [] ∧ (∀ c ∈ d.data, safeChar c = true) ∧
    d.data.head? ≠ some '_' ∧ d.data.getLast? ≠ some '_'

instance (d : String) : Decidable (goodName d) := by
  unfold goodName; infer_instance

/-! ## Resumable fetcher (`download_with_resume`, manager.py 184-228) -/

/-- The response of the transport to one request: a complete body, an
HTTP 416 `Range Not Satisfiable`, or any other HTTP/URL error. -/
inductive Resp where
  | ok (data : List Nat)
  | e416
  | eOther
deriving DecidableEq

/-- The two files a download task may leave on disk: the destination
and the `.part` file (contents as byte lists, `none` = absent). -/
structure DLState where
  dest : Option (List Nat)
  part : Option (List Nat)
deriving DecidableEq

/-- Externally visible events of one `download_with_resume` run. -/
inductive DLEvent where
  | skipExisting
  | resumedAt (offset : Nat)
  | discardPart
  | saved
  | httpErr
deriving DecidableEq

/-- Embedding of `download_with_resume(url, dest)`.  The transport is a function from
the request's Range offset (`none` = no `Range` header) to a response;
the 416 branch deletes the partial file and recurses.  The recursion in
the source is unguarded, so the embedding is fuel-indexed: a result of
`none` in the first component means the recursion did not terminate
within `fuel` nested calls.  The second component is the event trace
(also of a truncated run). -/
def download_with_resume (serve : Option Nat → Resp) :
    Nat → DLState → Option (Bool × DLState) × List DLEvent
  | 0, _ => (none, [])
  | fuel + 1, st =>
    match st.dest with
    | some d => (some (true, ⟨some d, st.part⟩), [.skipExisting])
    | none =>
      match st.part with
      | some p =>
        -- headers["Range"] = f"bytes={downloaded}-"
        match serve (some p.length) with
        | .ok data =>
          -- stream appended to the .part file, then part.replace(dest)
          (some (true, ⟨some (p ++ data), none⟩), [.resumedAt p.length, .saved])
        | .e416 =>
          -- part.unlink(); return download_with_resume(url, dest)
          let r := download_with_resume serve fuel ⟨none, none⟩
          (r.1, .discardPart :: r.2)
        | .eOther => (some (false, st), [.httpErr])
      | none =>
        match serve none with
        | .ok data => (some (true, ⟨some data, none⟩), [.saved])
        | .e416 =>
          let r := download_with_resume serve fuel ⟨none, none⟩
          (r.1, .discardPart :: r.2)
        | .eOther => (some (false, st), [.httpErr])

/-- Number of discard-and-restart (416) events in a trace. -/
def countDiscard : List DLEvent → Nat
  | [] => 0
  | .discardPart :: r => countDiscard r + 1
  | _ :: r => countDiscard r

/-! ## Session supervisor stop (`stop_server_screen`, manager.py 626-642)

`is_running` is a query against `screen -ls`; the oracle `f i` gives the
answer of the i-th query of the run.  Queries are numbered in program
order: 0 the initial check, 1 the check inside `send_command`, 2..21 the
twenty poll-loop checks, 22 the check after the forced quit. -/

inductive ScreenEvent where
  | infoNotRunning        -- "[INFO] ... is not running."
  | errNotRunning         -- send_command's "[ERR] ... is not running."
  | cmdSent (s : String)  -- screen -X stuff (command + "\r")
  | sleep1                -- time.sleep(1)
  | okStopped             -- "[OK] ... stopped."
  | forceQuit             -- screen -S name -X quit
  | warnForced            -- "[WARN] Forced quit ..."
  | errClose              -- "[ERR] Could not close ..."
deriving DecidableEq

/-- The `for _ in range(20)` poll loop, starting at query index `i`;
returns the events and whether the loop returned early (server gone). -/
def stopPoll (f : Nat → Bool) : Nat → Nat → List ScreenEvent × Bool
  | _, 0 => ([], false)
  | i, k + 1 =>
    match f i with
    | false => ([.okStopped], true)
    | true =>
      let r := stopPoll f (i + 1) k
      (.sleep1 :: r.1, r.2)

/-- Embedding of `stop_server_screen(folder)` as its event trace. -/
def stop_server_screen (f : Nat → Bool) : List ScreenEvent :=
  match f 0 with
  | false => [.infoNotRunning]
  | true =>
    let sendEvs : List ScreenEvent :=
      match f 1 with
      | true => [.cmdSent "stop"]
      | false => [.errNotRunning]
    let p := stopPoll f 2 20
    match p.2 with
    | true => sendEvs ++ p.1
    | false =>
      sendEvs ++ p.1 ++ [.forceQuit] ++
        (match f 22 with
         | false => [.warnForced]
         | true => [.errClose])

/-- Number of 1-second sleeps in a stop trace. -/
def countSleep : List ScreenEvent → Nat
  | [] => 0
  | .sleep1 :: r => countSleep r + 1
  | _ :: r => countSleep r

/-! ## Backup coordinator (`backup_server`, manager.py 674-710) -/

/-- One regular file met by `os.walk`: the directory path relative to
the instance root, and the file name. -/
structure WalkEntry where
  dirs : List String
  fname : String
deriving DecidableEq

/-- Embedding of `src.relative_to(folder)` joined as the zip arcname. -/
def arcnameOf (e : WalkEntry) : String :=
  String.intercalate "/" (e.dirs ++ [e.fname])

/-- Environment of one `backup_server` run: the instance directory's
base name, the `time.strftime` timestamp, the files listed by the walk,
the index of the `zf.write` call that raises (if any; `none` = the
whole archive write succeeds), and the `include_logs` flag. -/
structure BackupEnv where
  folderName : String
  ts : String
  walk : List WalkEntry
  failAt : Option Nat
  includeLogs : Bool

inductive BkEvent where
  | cmdSent (s : String)  -- send_command delivered the console command
  | cmdErr                -- send_command found the session gone
  | sleep3                -- time.sleep(3)
  | wrote (arc : String)  -- zf.write(src, arcname)
deriving DecidableEq

/-- The zip walk loop: skips `screen.log` entries unless `include_logs`,
writes everything else, and aborts with `false` when the `w`-th write
raises.  There is no test against the archive's own output path. -/
def zipWalk (includeLogs : Bool) (failAt : Option Nat) :
    List WalkEntry → Nat → List BkEvent × Bool
  | [], _ => ([], true)
  | e :: rest, w =>
    if ¬includeLogs ∧ e.fname = "screen.log" then
      zipWalk includeLogs failAt rest w
    else if failAt = some w then ([], false)
    else
      let r := zipWalk includeLogs failAt rest (w + 1)
      (.wrote (arcnameOf e) :: r.1, r.2)

/-- Embedding of `backup_server(folder, dest_dir, include_logs)`.  `f` is the
`is_running` oracle (query 0: the `running` flag; queries 1, 2: inside
the save-off / save-all sends; query 3: inside the save-on send).
Returns the archive path (or `none`: the exception handler returned
`None`) and the event trace.  The `save-on` send sits inside the `try`
block after the archive write, so a raising write skips it. -/
def backup_server (f : Nat → Bool) (env : BackupEnv) :
    Option String × List BkEvent :=
  let running := f 0
  let pre : List BkEvent :=
    if running then
      (if f 1 then [.cmdSent "save-off"] else [.cmdErr]) ++
      (if f 2 then [.cmdSent "save-all flush"] else [.cmdErr]) ++ [.sleep3]
    else []
  let outZip := env.folderName ++ "_" ++ env.ts ++ ".zip"
  let z := zipWalk env.includeLogs env.failAt env.walk 0
  if z.2 = false then
    (none, pre ++ z.1)
  else
    let post : List BkEvent :=
      if running then (if f 3 then [.cmdSent "save-on"] else [.cmdErr]) else []
    (some outZip, pre ++ z.1 ++ post)

/-- The arcnames actually written into the archive, in order. -/
def writtenArcs : List BkEvent → List String
  | [] => []
  | .wrote a :: r => a :: writtenArcs r
  | _ :: r => writtenArcs r

/-! ## Descriptor store (`read_server_meta`, manager.py 532-551) -/

/-- The files of an instance directory that `read_server_meta` touches.
`metaJson` is `mcsmeta.json`: absent (`none`), present but not valid
JSON (`some none`), or present with the parsed key/value record
(`some (some kv)`).  `startSh` is the text of `start.sh` if present. -/
structure ServerFolder where
  metaJson : Option (Option (List (String × String)))
  startSh : Option String

/-- Embedding of `re.search(r"-Xmx(\S+)", txt)` attempted at one position. -/
def matchXmxAt : List Char → Option (List Char)
  | '-' :: 'X' :: 'm' :: 'x' :: rest =>
    let cap := rest.takeWhile (fun c => !isPySpace c)
    if cap.isEmpty then none else some cap
  | _ => none

/-- Embedding of `re.search(r'-jar\s+"?([^"\n]+)"?', txt)` attempted at one position.
Greedy `\s+`, optional opening quote, then a maximal nonempty run of
characters other than `"` and newline.  (The exotic backtracking of
`\s+` into the capture group, reachable only when nothing but
whitespace follows `-jar`, is not modelled; generated launch scripts
always quote the jar name.) -/
def matchJarAt : List Char → Option (List Char)
  | '-' :: 'j' :: 'a' :: 'r' :: rest =>
    let ws := rest.takeWhile isPySpace
    if ws.isEmpty then none
    else
      let r := rest.dropWhile isPySpace
      let r2 := match r with
        | '"' :: t => t
        | _ => r
      let cap := r2.takeWhile (fun c => c ≠ '"' ∧ c ≠ '\n')
      if cap.isEmpty then none else some cap
  | _ => none

/-- Embedding of `re.search`: try the matcher at every position, left to right. -/
def searchFirst (m : List Char → Option (List Char)) : List Char → Option (List Char)
  | [] => m []
  | l@(_ :: t) =>
    match m l with
    | some r => some r
    | none => searchFirst m t

/-- Embedding of `read_server_meta(folder)`: the parsed `mcsmeta.json` if valid, else
the heuristic reconstruction from `start.sh` (with `"?"` sentinels),
else the empty record. -/
def read_server_meta (f : ServerFolder) : List (String × String) :=
  match f.metaJson with
  | some (some kv) => kv
  | _ =>
    match f.startSh with
    | some txt =>
      [("mc_version", "?"), ("loader", "vanilla"),
       ("jar", match searchFirst matchJarAt txt.data with
         | some cap => String.mk cap
         | none => "?"),
       ("memory", match searchFirst matchXmxAt txt.data with
         | some cap => String.mk cap
         | none => "?")]
    | none => []

/-- The `start.sh` text generated by `write_start_sh` (manager.py
430-444), after `textwrap.dedent`. -/
def start_sh_content (java_path mem extra_args jar_name : String) : String :=
  "#!/usr/bin/env bash\n" ++
  "cd \"$(dirname \"$0\")\"\n" ++
  "exec " ++ java_path ++ " -Xms" ++ mem ++ " -Xmx" ++ mem ++ " " ++
    extra_args ++ " -jar \"" ++ jar_name ++ "\" nogui\n"

/-! ## Generic list lemmas used by the string-processing proofs -/

theorem dropWhile_eq_self_of_none {α : Type} {p : α → Bool} :
    ∀ {l : List α}, (∀ a ∈ l, p a = false) → l.dropWhile p = l
  | [], _ => rfl
  | a :: t, h => by
    simp [List.dropWhile, h a (by simp)]

theorem takeWhile_eq_self_of_all {α : Type} {p : α → Bool} :
    ∀ {l : List α}, (∀ a ∈ l, p a = true) → l.takeWhile p = l
  | [], _ => rfl
  | a :: t, h => by
    simp only [List.takeWhile, h a (by simp)]
    exact congrArg (a :: ·) (takeWhile_eq_self_of_all fun b hb => h b (by simp [hb]))

theorem dropWhile_eq_nil_of_all {α : Type} {p : α → Bool} :
    ∀ {l : List α}, (∀ a ∈ l, p a = true) → l.dropWhile p = []
  | [], _ => rfl
  | a :: t, h => by
    simp only [List.dropWhile, h a (by simp)]
    exact dropWhile_eq_nil_of_all fun b hb => h b (by simp [hb])

theorem takeWhile_append_all {α : Type} {p : α → Bool} :
    ∀ {l r : List α}, (∀ a ∈ l, p a = true) →
      (l ++ r).takeWhile p = l ++ r.takeWhile p
  | [], r, _ => rfl
  | a :: t, r, h => by
    simp only [List.cons_append, List.takeWhile, h a (by simp)]
    exact congrArg (a :: ·) (takeWhile_append_all fun b hb => h b (by simp [hb]))

theorem dropWhile_append_all {α : Type} {p : α → Bool} :
    ∀ {l r : List α}, (∀ a ∈ l, p a = true) →
      (l ++ r).dropWhile p = r.dropWhile p
  | [], r, _ => rfl
  | a :: t, r, h => by
    simp only [List.cons_append, List.dropWhile, h a (by simp)]
    exact dropWhile_append_all fun b hb => h b (by simp [hb])

theorem mem_of_takeWhile {α : Type} {p : α → Bool} :
    ∀ {l : List α} {a : α}, a ∈ l.takeWhile p → p a = true
  | [], a, h => by simp [List.takeWhile] at h
  | b :: t, a, h => by
    by_cases hb : p b = true
    · rcases (by simpa [List.takeWhile, hb] using h : a = b ∨ a ∈ t.takeWhile p) with h1 | h1
      · exact h1 ▸ hb
      · exact mem_of_takeWhile h1
    · simp [List.takeWhile, Bool.eq_false_iff.mpr hb] at h

theorem mem_of_getLast? {α : Type} :
    ∀ {l : List α} {a : α}, l.getLast? = some a → a ∈ l
  | [], a, h => by simp at h
  | [b], a, h => by simp_all
  | b :: c :: t, a, h => by
    have : (c :: t).getLast? = some a := by
      simpa [List.getLast?] using h
    exact List.mem_cons_of_mem b (mem_of_getLast? this)

theorem map_eq_self_of_fix {α : Type} {f : α → α} :
    ∀ {l : List α}, (∀ a ∈ l, f a = a) → l.map f = l
  | [], _ => rfl
  | a :: t, h => by
    simp only [List.map, h a (by simp)]
    exact congrArg (a :: ·) (map_eq_self_of_fix fun b hb => h b (by simp [hb]))

theorem filter_eq_self_of_all {α : Type} {p : α → Bool} :
    ∀ {l : List α}, (∀ a ∈ l, p a = true) → l.filter p = l
  | [], _ => rfl
  | a :: t, h => by
    simp only [List.filter, h a (by simp)]
    exact congrArg (a :: ·) (filter_eq_self_of_all fun b hb => h b (by simp [hb]))

/-! ## Character-class lemmas -/

theorem clean_not_space {c : Char} (h : cleanChar c = true) : isPySpace c = false := by
  simp only [cleanChar, isDigitChar, isUnitChar, Bool.or_eq_true, Bool.and_eq_true,
    decide_eq_true_eq] at h
  simp only [isPySpace, Bool.or_eq_false_iff, decide_eq_false_iff_not]
  omega

theorem clean_pyUpper {c : Char} (h : cleanChar c = true) : pyUpper c = c := by
  simp only [cleanChar, isDigitChar, isUnitChar, Bool.or_eq_true, Bool.and_eq_true,
    decide_eq_true_eq] at h
  simp only [pyUpper, ite_eq_right_iff]
  omega

theorem clean_ne_space {c : Char} (h : cleanChar c = true) : c ≠ ' ' := by
  intro he
  subst he
  simp [cleanChar, isDigitChar, isUnitChar] at h

theorem clean_ne_B {c : Char} (h : cleanChar c = true) : c ≠ 'B' := by
  intro he
  subst he
  simp [cleanChar, isDigitChar, isUnitChar] at h

theorem unit_not_digit {c : Char} (h : isUnitChar c = true) : isDigitChar c = false := by
  simp only [isUnitChar, Bool.or_eq_true, decide_eq_true_eq] at h
  simp only [isDigitChar, Bool.and_eq_false_iff, decide_eq_false_iff_not]
  omega

/-- Preprocessing is the identity on clean strings (no whitespace to
strip, nothing to uppercase, no spaces to remove, no trailing `B`). -/
theorem preprocess_clean {l : List Char} (h : ∀ c ∈ l, cleanChar c = true) :
    preprocess l = l := by
  have hstrip : pyStrip l = l := by
    unfold pyStrip
    rw [dropWhile_eq_self_of_none (fun a ha => clean_not_space (h a ha)),
      dropWhile_eq_self_of_none
        (fun a ha => clean_not_space (h a (List.mem_reverse.mp ha))),
      List.reverse_reverse]
  have hmap : l.map pyUpper = l :=
    map_eq_self_of_fix fun a ha => clean_pyUpper (h a ha)
  have hfilter : l.filter (fun c => c ≠ ' ') = l :=
    filter_eq_self_of_all fun a ha => by
      simpa using clean_ne_space (h a ha)
  have hB : dropTrailB l = l := by
    unfold dropTrailB
    split
    · next hlast =>
      exact absurd rfl (clean_ne_B (h _ (mem_of_getLast? hlast)))
    · rfl
  unfold preprocess
  rw [hstrip, hmap, hfilter, hB]

/-! ## parseMag lemmas -/

theorem parseMag_digits {ds : List Char} (h1 : ds ≠ [])
    (h2 : ∀ c ∈ ds, isDigitChar c = true) :
    parseMag ds = some (ds, none) := by
  unfold parseMag
  rw [takeWhile_eq_self_of_all h2, dropWhile_eq_nil_of_all h2]
  simp [h1]

theorem parseMag_digits_unit {ds : List Char} {u : Char} (h1 : ds ≠ [])
    (h2 : ∀ c ∈ ds, isDigitChar c = true) (h3 : isUnitChar u = true) :
    parseMag (ds ++ [u]) = some (ds, some u) := by
  unfold parseMag
  rw [takeWhile_append_all h2, dropWhile_append_all h2]
  simp [List.takeWhile, List.dropWhile, unit_not_digit h3, h1, h3]

theorem parseMag_sound {l num : List Char} {unit : Option Char}
    (h : parseMag l = some (num, unit)) :
    num ≠ [] ∧ (∀ c ∈ num, isDigitChar c = true) ∧
      ∀ u, unit = some u → isUnitChar u = true := by
  unfold parseMag at h
  by_cases hds : (l.takeWhile isDigitChar).isEmpty
  · simp [hds] at h
  · simp only [hds, Bool.false_eq_true, if_false] at h
    rcases hrest : l.dropWhile isDigitChar with _ | ⟨c, rest⟩ <;> rw [hrest] at h
    · obtain ⟨h1, h2⟩ := by simpa using h
      subst h1
      refine ⟨by simpa [List.isEmpty_iff] using hds,
        fun c hc => mem_of_takeWhile hc, ?_⟩
      intro u hu
      simp [← h2] at hu
    · cases rest with
      | nil =>
        by_cases hu : isUnitChar c = true
        · obtain ⟨h1, h2⟩ := by simpa [hu] using h
          subst h1
          refine ⟨by simpa [List.isEmpty_iff] using hds,
            fun d hd => mem_of_takeWhile hd, ?_⟩
          intro u huu
          rw [← h2] at huu
          cases huu
          exact hu
        · simp [Bool.eq_false_iff.mpr hu] at h
      | cons d rest' => simp at h

/-! ## Decimal printing lemmas -/

theorem digitChar_val {n : Nat} (h : n ≤ 9) : digitVal (digitChar n) = n := by
  interval_cases n <;> decide

theorem digitChar_digit {n : Nat} (h : n ≤ 9) : isDigitChar (digitChar n) = true := by
  interval_cases n <;> decide

theorem digitsToNat_append_single (ds : List Char) (c : Char) :
    digitsToNat (ds ++ [c]) = 10 * digitsToNat ds + digitVal c := by
  simp [digitsToNat, List.foldl_append]

theorem natToCharsAux_digits :
    ∀ (fuel n : Nat), ∀ c ∈ natToCharsAux fuel n, isDigitChar c = true := by
  intro fuel
  induction fuel with
  | zero => intro n c hc; simp [natToCharsAux] at hc
  | succ fuel ih =>
    intro n c hc
    unfold natToCharsAux at hc
    by_cases hn : n < 10
    · simp only [hn, if_true, List.mem_singleton] at hc
      exact hc ▸ digitChar_digit (by omega)
    · simp only [hn, if_false, List.mem_append, List.mem_singleton] at hc
      rcases hc with hc | hc
      · exact ih (n / 10) c hc
      · exact hc ▸ digitChar_digit (by omega)

theorem natToCharsAux_roundtrip :
    ∀ (fuel n : Nat), n < fuel → digitsToNat (natToCharsAux fuel n) = n := by
  intro fuel
  induction fuel with
  | zero => intro n h; omega
  | succ fuel ih =>
    intro n h
    unfold natToCharsAux
    by_cases hn : n < 10
    · simp only [hn, if_true]
      have : digitsToNat [digitChar n] = digitVal (digitChar n) := by
        simp [digitsToNat]
      rw [this, digitChar_val (by omega)]
    · simp only [hn, if_false]
      rw [digitsToNat_append_single]
      have hdiv : n / 10 < fuel := by
        have h1 : n / 10 < n := Nat.div_lt_self (by omega) (by omega)
        omega
      rw [ih (n / 10) hdiv, digitChar_val (show n % 10 ≤ 9 by omega)]
      omega

theorem natToChars_roundtrip (n : Nat) : digitsToNat (natToChars n) = n :=
  natToCharsAux_roundtrip (n + 1) n (Nat.lt_succ_self n)

theorem natToChars_digits {n : Nat} : ∀ c ∈ natToChars n, isDigitChar c = true :=
  natToCharsAux_digits (n + 1) n

theorem natToChars_ne_nil (n : Nat) : natToChars n ≠ [] := by
  unfold natToChars natToCharsAux
  by_cases hn : n < 10 <;> simp [hn]

/-! ## normalize_ram unfolding and fixed-point lemmas -/

theorem nr_of_empty {value fb : String} (h : value.data.isEmpty = true) :
    normalize_ram value fb = fb := by
  simp [normalize_ram, h]

theorem nr_of_parse_none {value fb : String} (h0 : value.data.isEmpty = false)
    (h : parseMag (preprocess value.data) = none) :
    normalize_ram value fb = fb := by
  simp [normalize_ram, h0, h]

theorem nr_of_parse_unit {value fb : String} {num : List Char} {u : Char}
    (h0 : value.data.isEmpty = false)
    (h : parseMag (preprocess value.data) = some (num, some u)) :
    normalize_ram value fb =
      if 0 < digitsToNat num then String.mk (num ++ [u])
      else ramUnitless (digitsToNat num) := by
  simp [normalize_ram, h0, h]

theorem nr_of_parse_nounit {value fb : String} {num : List Char}
    (h0 : value.data.isEmpty = false)
    (h : parseMag (preprocess value.data) = some (num, none)) :
    normalize_ram value fb = ramUnitless (digitsToNat num) := by
  simp [normalize_ram, h0, h]

/-- A canonical magnitude-with-unit string is a fixed point of
`normalize_ram` (whatever the fallback). -/
theorem nr_fix_unit {num : List Char} {u : Char} {fb : String} (h1 : num ≠ [])
    (h2 : ∀ c ∈ num, isDigitChar c = true) (h3 : isUnitChar u = true)
    (h4 : 0 < digitsToNat num) :
    normalize_ram (String.mk (num ++ [u])) fb = String.mk (num ++ [u]) := by
  have hdata : (String.mk (num ++ [u])).data = num ++ [u] := rfl
  have hclean : ∀ c ∈ num ++ [u], cleanChar c = true := by
    intro c hc
    rcases List.mem_append.mp hc with hc | hc
    · simp [cleanChar, h2 c hc]
    · simp only [List.mem_singleton] at hc
      simp [cleanChar, hc ▸ h3]
  have hne : (num ++ [u]).isEmpty = false := by
    cases num <;> simp
  rw [show normalize_ram (String.mk (num ++ [u])) fb =
      if 0 < digitsToNat num then String.mk (num ++ [u])
      else ramUnitless (digitsToNat num) from by
    apply nr_of_parse_unit (by rw [hdata]; exact hne)
    rw [hdata, preprocess_clean hclean]
    exact parseMag_digits_unit h1 h2 h3]
  simp [h4]

/-- Every output of the unit-less branch is a fixed point of
`normalize_ram` (whatever the fallback). -/
theorem nr_fix_unitless (n : Nat) (fb : String) :
    normalize_ram (ramUnitless n) fb = ramUnitless n := by
  by_cases h256 : 256 ≤ n
  · rw [show ramUnitless n = String.mk (natToChars n ++ ['M']) from by
      simp [ramUnitless, h256]]
    exact nr_fix_unit (natToChars_ne_nil n) natToChars_digits (by decide)
      (by rw [natToChars_roundtrip]; omega)
  · rw [show ramUnitless n = String.mk (natToChars n ++ ['G']) from by
      simp [ramUnitless, h256]]
    by_cases h0 : 0 < n
    · exact nr_fix_unit (natToChars_ne_nil n) natToChars_digits (by decide)
        (by rw [natToChars_roundtrip]; omega)
    · have hn : n = 0 := by omega
      subst hn
      rfl

/-! ## Claim C6: RAM normalization -/

/-- C6: `normalize_ram` satisfies the literal table — `"4G"→"4G"`,
`"4096"→"4096M"`, `"200"→"200G"`, `"2048mb"→"2048M"`, `""→fallback`,
`"garbage"→fallback` — and, for every unit-less numeric input, returns
the value suffixed `"M"` when it is ≥ 256 and suffixed `"G"` when it is
< 256, while any input that fails the numeric+optional-unit parse
returns the fallback (no error is possible: the function is total). -/
theorem claim_C6_ram_normalization :
    (∀ fb : String,
      normalize_ram "4G" fb = "4G" ∧ normalize_ram "4096" fb = "4096M" ∧
      normalize_ram "200" fb = "200G" ∧ normalize_ram "2048mb" fb = "2048M" ∧
      normalize_ram "" fb = fb ∧ normalize_ram "garbage" fb = fb) ∧
    (∀ (ds : List Char) (fb : String), ds ≠ [] →
      (∀ c ∈ ds, isDigitChar c = true) →
      normalize_ram (String.mk ds) fb =
        if 256 ≤ digitsToNat ds then
          String.mk (natToChars (digitsToNat ds) ++ ['M'])
        else String.mk (natToChars (digitsToNat ds) ++ ['G'])) ∧
    (∀ v fb : String, v.data.isEmpty = false →
      parseMag (preprocess v.data) = none → normalize_ram v fb = fb) := by
  refine ⟨fun fb => ⟨rfl, rfl, rfl, rfl, rfl, rfl⟩, ?_, ?_⟩
  · intro ds fb h1 h2
    have hE : (String.mk ds).data.isEmpty = false := by
      cases ds with
      | nil => exact absurd rfl h1
      | cons c t => rfl
    have hp : parseMag (preprocess (String.mk ds).data) = some (ds, none) := by
      rw [show (String.mk ds).data = ds from rfl,
        preprocess_clean (fun c hc => by simp [cleanChar, h2 c hc])]
      exact parseMag_digits h1 h2
    rw [nr_of_parse_nounit hE hp]
    rfl
  · intro v fb h0 hp
    exact nr_of_parse_none h0 hp

/-- Witness for C6 at the unit-less input `"300"` (and the parse-failure
input `"zz"`). -/
theorem claim_C6_witness :
    normalize_ram (String.mk ['3', '0', '0']) "4G" = "300M" ∧
    normalize_ram "zz" "4G" = "4G" :=
  ⟨(claim_C6_ram_normalization.2.1 ['3', '0', '0'] "4G" (by decide)
      (by decide)).trans (by decide),
   claim_C6_ram_normalization.2.2 "zz" "4G" (by decide) (by decide)⟩

/-! ## Claim C10: idempotence of normalize_ram -/

/-- C10: `normalize_ram` is idempotent under the default fallback
`"4G"`: normalizing an already-normalized value changes nothing (every
output, including the zero-magnitude `"0G"` produced from inputs such
as `"0M"` via the unit-less heuristic, is a fixed point). -/
theorem claim_C10_normalize_ram_idempotent (v : String) :
    normalize_ram (normalize_ram v "4G") "4G" = normalize_ram v "4G" := by
  cases hE : v.data.isEmpty with
  | true =>
    rw [nr_of_empty hE]
    decide
  | false =>
    rcases hp : parseMag (preprocess v.data) with _ | ⟨num, unit⟩
    · rw [nr_of_parse_none hE hp]
      decide
    · obtain ⟨hne, hdig, hunit⟩ := parseMag_sound hp
      cases unit with
      | none =>
        rw [nr_of_parse_nounit hE hp]
        exact nr_fix_unitless _ _
      | some u =>
        rw [nr_of_parse_unit hE hp]
        by_cases hpos : 0 < digitsToNat num
        · rw [if_pos hpos]
          exact nr_fix_unit hne hdig (hunit u rfl) hpos
        · rw [if_neg hpos]
          exact nr_fix_unitless _ _

/-! ## Claim C1: resume correctness of the fetcher -/

/-- C1: if the destination is absent, the partial file holds the first
`k` bytes of the content, and the transport answers the byte-range
request at that offset with exactly the remaining bytes, then
`download_with_resume` succeeds and the destination file is
byte-identical to the full content (the partial file is consumed by the
atomic rename). -/
theorem claim_C1_resume_correctness (content : List Nat) (k : Nat)
    (serve : Option Nat → Resp)
    (hserve : serve (some (content.take k).length) = .ok (content.drop k)) :
    download_with_resume serve 1 ⟨none, some (content.take k)⟩ =
      (some (true, ⟨some content, none⟩),
       [.resumedAt (content.take k).length, .saved]) := by
  simp only [download_with_resume]
  rw [hserve]
  simp [List.take_append_drop]

/-- Witness for C1: content `[1,2,3]` split at offset 1. -/
theorem claim_C1_witness :
    download_with_resume
        (fun r => if r = some 1 then .ok [2, 3] else .eOther) 1
        ⟨none, some [1]⟩ =
      (some (true, ⟨some [1, 2, 3], none⟩), [.resumedAt 1, .saved]) := by
  have h := claim_C1_resume_correctness [1, 2, 3] 1
    (fun r => if r = some 1 then .ok [2, 3] else .eOther) (by decide)
  simpa using h

/-! ## Claim C2: 416 recovery -/

/-- C2 counterexample: the discard-and-restart is NOT bounded to one
occurrence per caller invocation.  Against a transport that answers
every request (even a range-free one) with 416, a single invocation
discards the partial file once per recursion level without
terminating: within 3 levels of fuel the trace already holds 3 discard
events and no result has been produced. -/
theorem claim_C2_counterexample :
    countDiscard
        (download_with_resume (fun _ => .e416) 3 ⟨none, some [1]⟩).2 = 3 ∧
    (download_with_resume (fun _ => .e416) 3 ⟨none, some [1]⟩).1 = none := by
  decide

theorem countDiscard_no_part {serve : Option Nat → Resp}
    (h : serve none ≠ .e416) :
    ∀ (fuel : Nat) (dest : Option (List Nat)),
      countDiscard (download_with_resume serve fuel ⟨dest, none⟩).2 = 0 := by
  intro fuel dest
  cases fuel with
  | zero => rfl
  | succ fuel =>
    cases dest with
    | some d => rfl
    | none =>
      rcases hs : serve none with data | _ | _
      · simp [download_with_resume, hs, countDiscard]
      · exact absurd hs h
      · simp [download_with_resume, hs, countDiscard]

/-- C2 (amended): on a 416 answer to a resume attempt the partial file
is discarded and the fetch restarts from offset zero; when the
restarted (range-free) request succeeds, the final file equals that
fresh full download of the current server content.  The restart is not
guarded by a one-shot flag: it happens at most once only because the
restarted request carries no `Range` header, i.e. whenever the
transport does not answer 416 to a range-free request. -/
theorem claim_C2_416_recovery :
    (∀ (p d : List Nat) (serve : Option Nat → Resp),
      serve (some p.length) = .e416 → serve none = .ok d →
      download_with_resume serve 2 ⟨none, some p⟩ =
        (some (true, ⟨some d, none⟩), [.discardPart, .saved])) ∧
    (∀ (serve : Option Nat → Resp) (fuel : Nat) (st : DLState),
      serve none ≠ .e416 →
      countDiscard (download_with_resume serve fuel st).2 ≤ 1) := by
  constructor
  · intro p d serve h1 h2
    simp [download_with_resume, h1, h2]
  · intro serve fuel st h
    obtain ⟨dest, part⟩ := st
    cases fuel with
    | zero => simp [download_with_resume, countDiscard]
    | succ fuel =>
      cases dest with
      | some de => simp [download_with_resume, countDiscard]
      | none =>
        cases part with
        | none =>
          rw [countDiscard_no_part h]
          omega
        | some p =>
          rcases hs : serve (some p.length) with data | _ | _
          · simp [download_with_resume, hs, countDiscard]
          · simp only [download_with_resume, hs]
            simp only [countDiscard]
            rw [countDiscard_no_part h]
          · simp [download_with_resume, hs, countDiscard]

/-- Witness for C2: a transport that 416s the range request but serves
`[1,2]` in full on the fresh request. -/
theorem claim_C2_witness :
    download_with_resume
        (fun r => match r with | none => .ok [1, 2] | some _ => .e416) 2
        ⟨none, some [7]⟩ =
      (some (true, ⟨some [1, 2], none⟩), [.discardPart, .saved]) ∧
    countDiscard
        (download_with_resume
          (fun r => match r with | none => .ok [1, 2] | some _ => .e416) 2
          ⟨none, some [7]⟩).2 ≤ 1 :=
  ⟨claim_C2_416_recovery.1 [7] [1, 2] _ rfl rfl,
   claim_C2_416_recovery.2 _ 2 ⟨none, some [7]⟩ (by decide)⟩

/-! ## Claim C7: stop semantics -/

theorem stopPoll_not_force (f : Nat → Bool) :
    ∀ (k i : Nat), ScreenEvent.forceQuit ∉ (stopPoll f i k).1 := by
  intro k
  induction k with
  | zero =>
    intro i
    exact List.not_mem_nil _
  | succ k ih =>
    intro i
    cases h : f i with
    | false => simp [stopPoll, h]
    | true =>
      simp only [stopPoll, h, List.mem_cons, not_or]
      exact ⟨by simp, ih (i + 1)⟩

theorem stopPoll_early_iff (f : Nat → Bool) :
    ∀ (k i : Nat),
      (stopPoll f i k).2 = false ↔ ∀ j, i ≤ j → j < i + k → f j = true := by
  intro k
  induction k with
  | zero =>
    intro i
    constructor
    · intro _ j h1 h2
      omega
    · intro _
      rfl
  | succ k ih =>
    intro i
    cases h : f i with
    | false =>
      simp only [stopPoll, h]
      constructor
      · intro hc
        simp at hc
      · intro hall
        have := hall i (Nat.le_refl i) (by omega)
        rw [h] at this
        simp at this
    | true =>
      simp only [stopPoll, h]
      rw [ih (i + 1)]
      constructor
      · intro hall j h1 h2
        rcases Nat.eq_or_lt_of_le h1 with he | hl
        · exact he ▸ h
        · exact hall j (by omega) (by omega)
      · intro hall j h1 h2
        exact hall j (by omega) (by omega)

theorem countSleep_append (a b : List ScreenEvent) :
    countSleep (a ++ b) = countSleep a + countSleep b := by
  induction a with
  | nil => simp [countSleep]
  | cons e t ih =>
    cases e <;> simp [countSleep, ih]
    all_goals omega

theorem stopPoll_sleep_le (f : Nat → Bool) :
    ∀ (k i : Nat), countSleep (stopPoll f i k).1 ≤ k := by
  intro k
  induction k with
  | zero =>
    intro i
    exact Nat.le_refl 0
  | succ k ih =>
    intro i
    cases h : f i with
    | false => simp [stopPoll, h, countSleep]
    | true =>
      simp only [stopPoll, h, countSleep]
      have := ih (i + 1)
      omega

theorem stopPoll_sleep_full (f : Nat → Bool) :
    ∀ (k i : Nat), (stopPoll f i k).2 = false →
      countSleep (stopPoll f i k).1 = k := by
  intro k
  induction k with
  | zero =>
    intro i _
    rfl
  | succ k ih =>
    intro i hfalse
    cases h : f i with
    | false => simp [stopPoll, h] at hfalse
    | true =>
      simp only [stopPoll, h] at hfalse ⊢
      simp only [countSleep]
      rw [ih (i + 1) hfalse]

/-- C7: if the instance is already stopped (query 0 answers false),
`stop` returns the informational no-op at once, never terminating the
session; otherwise it injects the `stop` command (provided the session
is still alive at the send), polls at most twenty 1-second sleeps, and
issues the forced `screen -X quit` exactly when every poll during the
20-second window still reported the session alive (in which case all
twenty sleeps elapsed). -/
theorem claim_C7_stop_semantics (f : Nat → Bool) :
    (f 0 = false → stop_server_screen f = [.infoNotRunning]) ∧
    (f 0 = true → f 1 = true →
      ScreenEvent.cmdSent "stop" ∈ stop_server_screen f) ∧
    (ScreenEvent.forceQuit ∈ stop_server_screen f ↔
      f 0 = true ∧ ∀ i, 2 ≤ i → i ≤ 21 → f i = true) ∧
    countSleep (stop_server_screen f) ≤ 20 ∧
    (ScreenEvent.forceQuit ∈ stop_server_screen f →
      countSleep (stop_server_screen f) = 20) := by
  have hsend : ∀ b : Bool,
      ScreenEvent.forceQuit ∉
        (match b with
         | true => [ScreenEvent.cmdSent "stop"]
         | false => [ScreenEvent.errNotRunning]) ∧
      countSleep
        (match b with
         | true => [ScreenEvent.cmdSent "stop"]
         | false => [ScreenEvent.errNotRunning]) = 0 := by
    intro b
    cases b <;> exact ⟨by simp, rfl⟩
  have htail : ∀ b : Bool,
      countSleep
        (match b with
         | false => [ScreenEvent.warnForced]
         | true => [ScreenEvent.errClose]) = 0 := by
    intro b
    cases b <;> rfl
  cases h0 : f 0 with
  | false =>
    refine ⟨fun _ => by simp [stop_server_screen, h0], ?_, ?_, ?_, ?_⟩
    · intro h0t
      exact absurd h0t (by simp)
    · simp only [stop_server_screen, h0]
      constructor
      · intro hmem
        simp at hmem
      · rintro ⟨h0t, -⟩
        exact absurd h0t (by simp)
    · simp only [stop_server_screen, h0]
      exact Nat.zero_le 20
    · simp only [stop_server_screen, h0]
      intro hmem
      simp at hmem
  | true =>
    cases hp : (stopPoll f 2 20).2 with
    | true =>
      have htr : stop_server_screen f =
          (match f 1 with
           | true => [ScreenEvent.cmdSent "stop"]
           | false => [ScreenEvent.errNotRunning]) ++ (stopPoll f 2 20).1 := by
        simp only [stop_server_screen, h0, hp]
      refine ⟨fun hc => absurd hc (by simp), ?_, ?_, ?_, ?_⟩
      · intro _ h1
        rw [htr, h1]
        simp
      · rw [htr]
        constructor
        · intro hmem
          rcases List.mem_append.mp hmem with hmem | hmem
          · exact absurd hmem (hsend (f 1)).1
          · exact absurd hmem (stopPoll_not_force f 20 2)
        · rintro ⟨-, hall⟩
          have : (stopPoll f 2 20).2 = false :=
            (stopPoll_early_iff f 20 2).mpr fun j hj1 hj2 =>
              hall j hj1 (by omega)
          rw [this] at hp
          cases hp
      · rw [htr, countSleep_append, (hsend (f 1)).2]
        have := stopPoll_sleep_le f 20 2
        omega
      · rw [htr]
        intro hmem
        rcases List.mem_append.mp hmem with hmem | hmem
        · exact absurd hmem (hsend (f 1)).1
        · exact absurd hmem (stopPoll_not_force f 20 2)
    | false =>
      have htr : stop_server_screen f =
          (match f 1 with
           | true => [ScreenEvent.cmdSent "stop"]
           | false => [ScreenEvent.errNotRunning]) ++ (stopPoll f 2 20).1 ++
            [ScreenEvent.forceQuit] ++
            (match f 22 with
             | false => [ScreenEvent.warnForced]
             | true => [ScreenEvent.errClose]) := by
        simp only [stop_server_screen, h0, hp]
      have hcount : countSleep (stop_server_screen f) = 20 := by
        rw [htr, countSleep_append, countSleep_append, countSleep_append,
          (hsend (f 1)).2, stopPoll_sleep_full f 20 2 hp, htail (f 22)]
        decide
      refine ⟨fun hc => absurd hc (by simp), ?_, ?_, ?_, fun _ => hcount⟩
      · intro _ h1
        rw [htr, h1]
        simp
      · rw [htr]
        constructor
        · intro _
          refine ⟨rfl, fun i hi1 hi2 => ?_⟩
          exact (stopPoll_early_iff f 20 2).mp hp i hi1 (by omega)
        · intro _
          simp
      · omega

/-- Witness for C7: an already-stopped instance is a no-op; a live
instance gets the graceful `stop` command and, staying alive the whole
window, the forced quit after twenty sleeps. -/
theorem claim_C7_witness :
    stop_server_screen (fun _ => false) = [.infoNotRunning] ∧
    ScreenEvent.cmdSent "stop" ∈ stop_server_screen (fun _ => true) ∧
    ScreenEvent.forceQuit ∈ stop_server_screen (fun _ => true) :=
  ⟨(claim_C7_stop_semantics (fun _ => false)).1 rfl,
   (claim_C7_stop_semantics (fun _ => true)).2.1 rfl rfl,
   ((claim_C7_stop_semantics (fun _ => true)).2.2.1).mpr
     ⟨rfl, fun _ _ _ => rfl⟩⟩

/-! ## Claims C3 and C5: backup coordinator -/

theorem writtenArcs_append (a b : List BkEvent) :
    writtenArcs (a ++ b) = writtenArcs a ++ writtenArcs b := by
  induction a with
  | nil => simp [writtenArcs]
  | cons e t ih => cases e <;> simp [writtenArcs, ih]

theorem writtenArcs_map_wrote (g : WalkEntry → String) (l : List WalkEntry) :
    writtenArcs (l.map (fun e => BkEvent.wrote (g e))) = l.map g := by
  induction l with
  | nil => rfl
  | cons e t ih => simp [writtenArcs, ih]

theorem zipWalk_no_fail (inc : Bool) :
    ∀ (l : List WalkEntry) (w : Nat),
      zipWalk inc none l w =
        ((l.filter (fun e => inc || e.fname ≠ "screen.log")).map
          (fun e => BkEvent.wrote (arcnameOf e)), true) := by
  intro l
  induction l with
  | nil =>
    intro w
    rfl
  | cons e rest ih =>
    intro w
    by_cases hf : e.fname = "screen.log" <;>
      cases inc <;> simp [zipWalk, hf, ih, List.filter]

/-- C3: the code does NOT restore autosave when the archive write
fails.  On a running instance (`save-off` and `save-all flush` were
sent) whose first `zf.write` raises, `backup_server` returns `None`
via its exception handler and the trace contains no `save-on`: the
`send_command(folder, "save-on")` call sits inside the `try` block
after the walk, so the exception skips it.  This contradicts the
claim/spec, which promise a best-effort `save-on` even on failure; the
claim describes the evident intent (not leaving the live server's
autosave disabled), so this is recorded as a bug in the code. -/
theorem claim_C3_backup_autosave_not_restored :
    (backup_server (fun _ => true)
      ⟨"srv", "20250101-120000", [⟨[], "a.txt"⟩], some 0, false⟩).1 = none ∧
    BkEvent.cmdSent "save-off" ∈
      (backup_server (fun _ => true)
        ⟨"srv", "20250101-120000", [⟨[], "a.txt"⟩], some 0, false⟩).2 ∧
    BkEvent.cmdSent "save-all flush" ∈
      (backup_server (fun _ => true)
        ⟨"srv", "20250101-120000", [⟨[], "a.txt"⟩], some 0, false⟩).2 ∧
    BkEvent.cmdSent "save-on" ∉
      (backup_server (fun _ => true)
        ⟨"srv", "20250101-120000", [⟨[], "a.txt"⟩], some 0, false⟩).2 := by
  decide

/-- C5 counterexample: the walk has no test against the archive's own
output path.  When the destination directory lies inside the instance
tree (here `backups/` below the root), the walk lists the just-created
`srv_20250101-120000.zip` and the loop writes it into itself — the
claim that the archive's own output file is never included is false. -/
theorem claim_C5_counterexample :
    (backup_server (fun _ => false)
      ⟨"srv", "20250101-120000",
        [⟨[], "a.txt"⟩, ⟨["backups"], "srv_20250101-120000.zip"⟩],
        none, false⟩).1 = some "srv_20250101-120000.zip" ∧
    "backups/srv_20250101-120000.zip" ∈
      writtenArcs (backup_server (fun _ => false)
        ⟨"srv", "20250101-120000",
          [⟨[], "a.txt"⟩, ⟨["backups"], "srv_20250101-120000.zip"⟩],
          none, false⟩).2 := by
  decide

/-- C5 (amended): when the archive write succeeds, the archive contains
exactly the walked regular files except those named `screen.log` (at
any depth) when `includeLogs` is off, with paths relative to the
instance root; nothing excludes the archive's own output file (it only
stays out of the archive when the destination directory — by default
the sibling `backups` directory — lies outside the walked tree).  In
particular `{a.txt, screen.log}` archives to `{a.txt}` without logs and
to `{a.txt, screen.log}` with logs. -/
theorem claim_C5_backup_archive_contents :
    (∀ (f : Nat → Bool) (env : BackupEnv), env.failAt = none →
      (backup_server f env).1 =
        some (env.folderName ++ "_" ++ env.ts ++ ".zip") ∧
      writtenArcs (backup_server f env).2 =
        (env.walk.filter
          (fun e => env.includeLogs || e.fname ≠ "screen.log")).map
          arcnameOf) ∧
    writtenArcs (backup_server (fun _ => false)
      ⟨"srv", "t", [⟨[], "a.txt"⟩, ⟨[], "screen.log"⟩], none, false⟩).2 =
      ["a.txt"] ∧
    writtenArcs (backup_server (fun _ => false)
      ⟨"srv", "t", [⟨[], "a.txt"⟩, ⟨[], "screen.log"⟩], none, true⟩).2 =
      ["a.txt", "screen.log"] := by
  refine ⟨?_, by decide, by decide⟩
  intro f env hfa
  obtain ⟨fn, ts, walk, fa, inc⟩ := env
  simp only at hfa
  subst hfa
  constructor
  · simp [backup_server, zipWalk_no_fail]
  · cases h0 : f 0 <;> cases h1 : f 1 <;> cases h2 : f 2 <;> cases h3 : f 3 <;>
      simp [backup_server, zipWalk_no_fail, writtenArcs_append,
        writtenArcs_map_wrote, writtenArcs, h0, h1, h2, h3]

/-- Witness for C5 at a concrete two-file walk (no failure). -/
theorem claim_C5_witness :
    writtenArcs (backup_server (fun _ => true)
      ⟨"srv", "t", [⟨[], "a.txt"⟩, ⟨["mods"], "x.jar"⟩], none, false⟩).2 =
      ["a.txt", "mods/x.jar"] :=
  (claim_C5_backup_archive_contents.1 (fun _ => true)
    ⟨"srv", "t", [⟨[], "a.txt"⟩, ⟨["mods"], "x.jar"⟩], none, false⟩
    rfl).2.trans (by decide)

/-! ## Claim C4: session-name determinism and injectivity -/

theorem dropWhile_underscore_eq_self {l : List Char} (h : l.head? ≠ some '_') :
    l.dropWhile (fun c => c = '_') = l := by
  cases l with
  | nil => rfl
  | cons c t =>
    have hc : c ≠ '_' := fun he => h (by simp [he])
    simp [List.dropWhile, hc]

theorem stripUnderscores_eq_self {l : List Char} (h1 : l.head? ≠ some '_')
    (h2 : l.getLast? ≠ some '_') : stripUnderscores l = l := by
  unfold stripUnderscores
  rw [dropWhile_underscore_eq_self h1,
    dropWhile_underscore_eq_self (by rwa [List.head?_reverse])]
  exact List.reverse_reverse l

theorem string_data_append (a b : String) : (a ++ b).data = a.data ++ b.data := by
  cases a
  cases b
  rfl

theorem string_ext {a b : String} (h : a.data = b.data) : a = b := by
  cases a
  cases b
  cases h
  rfl

/-- The function `safe_name` keeps a good directory name verbatim. -/
theorem safe_name_good {d : String} (h : goodName d) : safe_name d = d := by
  obtain ⟨hne, hsafe, hh, hl⟩ := h
  obtain ⟨data⟩ := d
  simp only [safe_name]
  rw [map_eq_self_of_fix (fun c hc => by simp [hsafe c hc]),
    stripUnderscores_eq_self hh hl]
  cases data with
  | nil => exact absurd rfl hne
  | cons c t => rfl

/-- C4 counterexample: `sessionName` is not injective.  The directory
names `"a!"` and `"a"` differ, yet both map to the session name
`"mc_a"` (the `!` is replaced by `_`, which is then stripped). -/
theorem claim_C4_counterexample :
    ("a!" : String) ≠ "a" ∧ sessionName "a!" = sessionName "a" := by
  decide

/-- C4 (amended): `sessionName` is a pure function of the directory
base name (repeated calls agree), and it is injective on good names —
nonempty names built only from `[A-Za-z0-9._-]` with no leading or
trailing underscore.  Full injectivity fails: names differing only in
characters outside that class (or in stripped underscores) collide. -/
theorem claim_C4_session_name :
    (∀ d : String, sessionName d = sessionName d) ∧
    (∀ d1 d2 : String, goodName d1 → goodName d2 → d1 ≠ d2 →
      sessionName d1 ≠ sessionName d2) := by
  refine ⟨fun d => rfl, ?_⟩
  intro d1 d2 h1 h2 hne heq
  apply hne
  rw [sessionName, sessionName, safe_name_good h1, safe_name_good h2] at heq
  apply string_ext
  have hd := congrArg String.data heq
  rw [string_data_append, string_data_append] at hd
  exact List.append_cancel_left hd

/-- Witness for C4: two good names with distinct session names. -/
theorem claim_C4_witness : sessionName "a" ≠ sessionName "b" :=
  claim_C4_session_name.2 "a" "b" (by decide) (by decide) (by decide)

/-! ## Claim C8: descriptor read fallback -/

/-- C8 counterexample: the fallback's sentinel is `"?"`, not
`"unknown"`, and when neither `mcsmeta.json` nor `start.sh` exists the
function returns an empty record — the fields (including the assumed
loader `"vanilla"`) are missing entirely rather than populated with a
sentinel. -/
theorem claim_C8_counterexample :
    read_server_meta ⟨none, none⟩ = [] ∧
    ("loader", "vanilla") ∉ read_server_meta ⟨none, none⟩ ∧
    ("mc_version", "unknown") ∉ read_server_meta
      ⟨some none, some (start_sh_content "java" "4G" "" "server-1.21.1.jar")⟩ := by
  decide

/-- C8 (amended): `read_server_meta` is total (never raises).  A valid
persisted record is returned as-is; on absence or corruption with a
`start.sh` present it reconstructs a descriptor assuming loader
`"vanilla"`, with version label `"?"` and the jar / heap tokens scanned
from the script (sentinel `"?"` when a token is missing); with no
`start.sh` either it returns the empty record (no sentinel fields).
On the generated launch script the scan recovers the jar name and the
memory spec exactly. -/
theorem claim_C8_descriptor_fallback :
    (∀ (kv : List (String × String)) (sh : Option String),
      read_server_meta ⟨some (some kv), sh⟩ = kv) ∧
    (∀ (mj : Option (Option (List (String × String)))) (txt : String),
      mj = none ∨ mj = some none →
      read_server_meta ⟨mj, some txt⟩ =
        [("mc_version", "?"), ("loader", "vanilla"),
         ("jar", match searchFirst matchJarAt txt.data with
           | some cap => String.mk cap
           | none => "?"),
         ("memory", match searchFirst matchXmxAt txt.data with
           | some cap => String.mk cap
           | none => "?")]) ∧
    (∀ mj, mj = none ∨ mj = some none → read_server_meta ⟨mj, none⟩ = []) ∧
    read_server_meta
        ⟨some none, some (start_sh_content "java" "4G" "" "server-1.21.1.jar")⟩ =
      [("mc_version", "?"), ("loader", "vanilla"),
       ("jar", "server-1.21.1.jar"), ("memory", "4G")] := by
  refine ⟨fun kv sh => rfl, ?_, ?_, by decide⟩
  · rintro mj txt (rfl | rfl) <;> rfl
  · rintro mj (rfl | rfl) <;> rfl

/-- Witness for C8: corrupt-free folder with a scriptless text. -/
theorem claim_C8_witness :
    read_server_meta ⟨none, some "x"⟩ =
      [("mc_version", "?"), ("loader", "vanilla"),
       ("jar", "?"), ("memory", "?")] :=
  (claim_C8_descriptor_fallback.2.1 none "x" (Or.inl rfl)).trans (by decide)

/-! ## Claim C9: heap-size warning -/

/-- C9 counterexample: a request of exactly 85% of the host total (850
MB of 1000 MB) satisfies the claim's `≥ 85%` condition, but the code
compares with a strict `>` against the truncated threshold and stays
silent. -/
theorem claim_C9_counterexample :
    85 * 1000 ≤ 100 * 850 ∧
    warn_if_heap_too_big "850M" (some 1000) = false := by
  decide

/-- C9 (amended): the check is pure and total (never blocks or fails
the caller, mutates nothing); it does nothing when the spec fails the
`^(\d+)([MG])$` parse or the host total is unreadable (or zero, which
the truthiness guard treats as unreadable), and otherwise warns exactly
when the requested megabytes strictly exceed the truncated 85% of the
host total — not when they merely reach 85%. -/
theorem claim_C9_heap_warning :
    (∀ (s : String) (t : Option Nat), parseHeapSpec s.data = none →
      warn_if_heap_too_big s t = false) ∧
    (∀ s : String, warn_if_heap_too_big s none = false) ∧
    (∀ (s : String) (total n : Nat) (isG : Bool),
      parseHeapSpec s.data = some (n, isG) →
      (warn_if_heap_too_big s (some total) = true ↔
        total ≠ 0 ∧ total * 85 / 100 < n * (if isG then 1024 else 1))) := by
  refine ⟨?_, ?_, ?_⟩
  · intro s t h
    simp [warn_if_heap_too_big, h]
  · intro s
    rcases h : parseHeapSpec s.data with _ | ⟨n, isG⟩ <;>
      simp [warn_if_heap_too_big, h]
  · intro s total n isG h
    simp [warn_if_heap_too_big, h]

/-- Witness for C9: 900 MB against a 1000 MB host warns. -/
theorem claim_C9_witness : warn_if_heap_too_big "900M" (some 1000) = true :=
  (claim_C9_heap_warning.2.2 "900M" 1000 900 false (by decide)).mpr (by decide)

end MCSmaker
